import Mathlib

/-!
Verification of the queue and playback-loop core of the `opendj` library
(`opendj.go`), against its natural-language specification.

The Go code is shallowly embedded:
 - `time.Duration` (an `int64` nanosecond count) and timestamps are modelled
   as `Int`; no claim under consideration depends on 64-bit overflow.
 - Go slices of `QueueEntry` become `List QueueEntry`; the in-place slice
   mutations of `opendj.go` are translated to their denotations on lists
   (`append` to `++`, the insert shift `append, copy, set` to
   `take i ++ e :: drop i`, the remove splice to `take i ++ drop (i+1)`).
 - Go `int` indices become `Int`, since the code branches on negative values.
 - fallible methods that in Go mutate the receiver and return an `error`
   become functions returning the new state paired with an `Option String`
   carrying the exact Go error message.
-/

namespace Opendj

/-- Media mirrors the Go struct `Media` (Title, URL, Duration). -/
structure Media where
  title : String
  url : String
  duration : Int
deriving DecidableEq

/-- QueueEntry mirrors the Go struct `QueueEntry` (Media, Owner, Dedication). -/
structure QueueEntry where
  media : Media
  owner : String
  dedication : String
deriving DecidableEq

/-- Dj mirrors the state of the Go struct `Dj`: the waiting queue
(`waitingQueue.Items`), the current entry and the song start time. -/
structure Dj where
  waitingQueue : List QueueEntry
  currentEntry : QueueEntry
  songStarted : Int
deriving DecidableEq

/-- Go zero value `Media\x7b\x7d`. -/
def emptyMedia : Media := ⟨"", "", 0⟩

/-- Go zero value `QueueEntry\x7b\x7d`. -/
def emptyEntry : QueueEntry := ⟨emptyMedia, "", ""⟩

/-- Message of the package-level `ErrorEmptyQueue`. -/
def errorEmptyQueueMsg : String := "can't pop from empty queue"

/-- Message used by all index-validation failures in `opendj.go`. -/
def outOfRangeMsg : String := "index out of range"

/-- AddEntry appends the entry at the end of the queue (`opendj.go` line 98). -/
def addEntry (dj : Dj) (newEntry : QueueEntry) : Dj :=
  ⟨dj.waitingQueue ++ [newEntry], dj.currentEntry, dj.songStarted⟩

/-- InsertEntry (`opendj.go` line 108): rejects a negative index, appends when
the index is not below the length, and otherwise shifts the suffix right by
one and places the entry at the index (the denotation of the Go
`append`/`copy`/assign sequence). -/
def insertEntry (dj : Dj) (newEntry : QueueEntry) (index : Int) :
    Dj × Option String :=
  if index < 0 then
    (dj, some outOfRangeMsg)
  else if (dj.waitingQueue.length : Int) ≤ index then
    (⟨dj.waitingQueue ++ [newEntry], dj.currentEntry, dj.songStarted⟩, none)
  else
    (⟨dj.waitingQueue.take index.toNat ++ newEntry :: dj.waitingQueue.drop index.toNat,
      dj.currentEntry, dj.songStarted⟩, none)

/-- RemoveIndex (`opendj.go` line 127): bounds check, then the splice
`append(items[:index], items[index+1:]...)`. -/
def removeIndex (dj : Dj) (index : Int) : Dj × Option String :=
  if (dj.waitingQueue.length : Int) ≤ index ∨ index < 0 then
    (dj, some outOfRangeMsg)
  else
    (⟨dj.waitingQueue.take index.toNat ++ dj.waitingQueue.drop (index.toNat + 1),
      dj.currentEntry, dj.songStarted⟩, none)

/-- ChangeIndex (`opendj.go` line 140): bounds check, then overwrite the
entry at the index. -/
def changeIndex (dj : Dj) (newEntry : QueueEntry) (index : Int) :
    Dj × Option String :=
  if index < 0 ∨ (dj.waitingQueue.length : Int) ≤ index then
    (dj, some outOfRangeMsg)
  else
    (⟨dj.waitingQueue.set index.toNat newEntry, dj.currentEntry, dj.songStarted⟩, none)

/-- pop (`opendj.go` line 153): on an empty queue returns the zero entry and
`ErrorEmptyQueue`; otherwise returns the head and keeps the tail. -/
def pop (dj : Dj) : (QueueEntry × Option String) × Dj :=
  match dj.waitingQueue with
  | [] => ((emptyEntry, some errorEmptyQueueMsg), dj)
  | e :: rest => ((e, none), ⟨rest, dj.currentEntry, dj.songStarted⟩)

/-- EntryAtIndex (`opendj.go` line 167): bounds check, then read (the queue is
not mutated, so no state is returned). -/
def entryAtIndex (dj : Dj) (index : Int) : QueueEntry × Option String :=
  if (dj.waitingQueue.length : Int) ≤ index ∨ index < 0 then
    (emptyEntry, some outOfRangeMsg)
  else
    (dj.waitingQueue.getD index.toNat emptyEntry, none)

/-- UserPosition (`opendj.go` line 286): the indices of all queue entries
whose owner equals the given nick, in queue order. -/
def userPosition (dj : Dj) (nick : String) : List Nat :=
  (List.range dj.waitingQueue.length).filter
    (fun i => (dj.waitingQueue.getD i emptyEntry).owner = nick)

/-- Scanning core of DurationUntilUser (`opendj.go` lines 303-309): walk the
queue left to right carrying an accumulator that starts at the caller's base
value; at each entry owned by `nick` output the accumulator, then always add
the entry's duration. -/
def durationsFrom (nick : String) (dur : Int) : List QueueEntry → List Int
  | [] => []
  | c :: rest =>
    if c.owner = nick then dur :: durationsFrom nick (dur + c.media.duration) rest
    else durationsFrom nick (dur + c.media.duration) rest

/-- DurationUntilUser (`opendj.go` line 299): the scan starts at the remaining
time of the current entry, `currentEntry.Media.Duration - time.Since(songStarted)`,
with `now` the external clock reading. -/
def durationUntilUser (dj : Dj) (now : Int) (nick : String) : List Int :=
  durationsFrom nick (dj.currentEntry.media.duration - (now - dj.songStarted)) dj.waitingQueue

/-- CurrentlyPlaying (`opendj.go` line 316): reports an error exactly when the
current entry's media equals the zero `Media` value, and in every case returns
the current entry together with `now - songStarted`. -/
def currentlyPlaying (dj : Dj) (now : Int) : QueueEntry × Int × Option String :=
  (dj.currentEntry, now - dj.songStarted,
    if dj.currentEntry.media = emptyMedia then some "there is no song being played" else none)

/-- Operations of the queue-mutation alphabet used by the spec's sequence
property (§8 of the spec). -/
inductive QOp where
  | add (e : QueueEntry)
  | insert (e : QueueEntry) (i : Int)
  | removeAt (i : Int)
  | replaceAt (e : QueueEntry) (i : Int)
deriving DecidableEq

/-- Apply one operation to the embedded Dj state, discarding the error
return, as the spec's sequence property observes only the queue contents. -/
def applyOp (dj : Dj) : QOp → Dj
  | .add e => addEntry dj e
  | .insert e i => (insertEntry dj e i).1
  | .removeAt i => (removeIndex dj i).1
  | .replaceAt e i => (changeIndex dj e i).1

/-- Run a sequence of operations against the embedded Dj state. -/
def runOps (dj : Dj) (ops : List QOp) : Dj :=
  ops.foldl applyOp dj

/-- Modelled from the spec (§4.1): the reference list model of one queue
operation. `Add` appends; `Insert` fails below zero, appends at or beyond the
length, and otherwise shifts `[index, length)` right by one and places the
entry at `index`; `RemoveAt` fails out of range and otherwise removes the
entry and shifts the rest left; `ReplaceAt` fails out of range and otherwise
overwrites in place. -/
def specApplyOp (l : List QueueEntry) : QOp → List QueueEntry
  | .add e => l ++ [e]
  | .insert e i =>
    if i < 0 then l
    else if (l.length : Int) ≤ i then l ++ [e]
    else l.take i.toNat ++ e :: l.drop i.toNat
  | .removeAt i =>
    if i < 0 ∨ (l.length : Int) ≤ i then l
    else l.take i.toNat ++ l.drop (i.toNat + 1)
  | .replaceAt e i =>
    if i < 0 ∨ (l.length : Int) ≤ i then l
    else l.set i.toNat e

/-- Modelled from the spec: run the reference list model over a sequence. -/
def specRun (l : List QueueEntry) (ops : List QOp) : List QueueEntry :=
  ops.foldl specApplyOp l

lemma applyOp_waitingQueue (dj : Dj) (op : QOp) :
    (applyOp dj op).waitingQueue = specApplyOp dj.waitingQueue op := by
  cases op with
  | add e => rfl
  | insert e i =>
    simp only [applyOp, insertEntry, specApplyOp]
    split_ifs <;> rfl
  | removeAt i =>
    simp only [applyOp, removeIndex, specApplyOp]
    rcases Classical.em ((dj.waitingQueue.length : Int) ≤ i ∨ i < 0) with h | h
    · rw [if_pos h, if_pos (Or.symm h)]
    · rw [if_neg h, if_neg (fun hc => h (Or.symm hc))]
  | replaceAt e i =>
    simp only [applyOp, changeIndex, specApplyOp]
    split_ifs <;> rfl

/-!
Model of the producer goroutine of `Play` (`opendj.go` lines 193-257).

The loop interacts with the outside world in three ways: it pops from the
shared queue (which other goroutines may refill at any time), it runs
`yt-dlp` to resolve a URL, and it runs `ffmpeg` through `writeToFIFO` to
stream either an entry's audio or a silence segment into the named pipe.
These interactions are abstracted as follows:
 - the sequence of pop outcomes is a `feed : List (Option QueueEntry)`;
   `none` is a pop that found the queue empty (`ErrorEmptyQueue`, the only
   error `pop` can return), `some e` a pop that returned the entry `e`.
   When the feed is exhausted every further pop finds the queue empty,
   which is what happens in the source once nobody refills the queue.
 - an `Env` of Boolean oracles decides which external commands fail:
   `resolveFails e` is a non-zero exit of the `yt-dlp` resolution of `e`,
   `encodeFails e` a non-zero exit of the `ffmpeg` run streaming `e`, and
   `silenceFails k` a non-zero exit of the `ffmpeg` run producing the k-th
   silence segment of the session.
The observable behaviour is the trace of `Event`s: bytes of a silence
segment written to the pipe (with its fixed length in seconds, from the
`-t 00:00:15` argument), an invocation of the new-song handler, the bytes
of an entry written to the pipe, and an invocation of the end-of-song
handler with the error value it is passed.  `songStarted` is not tracked
here; no claim about the loop mentions it.
-/

/-- External failure oracles for one run of the producer loop. -/
structure Env where
  resolveFails : QueueEntry → Bool
  encodeFails : QueueEntry → Bool
  silenceFails : Nat → Bool

/-- Observable events of the producer loop, in the order they happen. -/
inductive Event where
  | silence (seconds : Nat)
  | newSong (e : QueueEntry)
  | audio (e : QueueEntry)
  | endOfSong (e : QueueEntry) (err : Option String)
deriving DecidableEq

/-- Error results the producer goroutine can return (delivered to the
playback-error handler through `errgroup.Wait`). -/
inductive LoopErr where
  | resolveFailed
  | encodeFailed
deriving DecidableEq

/-- Tail phase of the producer loop once the queue stays empty: each
iteration clears the current entry, and while the empty-streak counter is
below 4 writes one 15-second silence segment and increments it; once the
counter reaches 4 the loop breaks with a nil error.  `fuel` is
`4 - emptyStreamCounter`, the number of silence segments the counter still
allows. -/
def drainSilence (env : Env) : Nat → Nat → List Event × Option LoopErr
  | 0, _ => ([], none)
  | fuel + 1, k =>
    if env.silenceFails k then ([], some .encodeFailed)
    else
      let r := drainSilence env fuel (k + 1)
      (Event.silence 15 :: r.1, r.2)

/-- One run of the producer loop (`opendj.go` lines 202-255) over a feed of
pop outcomes, starting with empty-streak counter `counter`, having already
emitted `k` silence segments, with `cur` the value of `dj.currentEntry`.
Returns the event trace, the goroutine's return value (`none` for the nil
return after the break) and the final `dj.currentEntry`.  Branches follow
the source: an empty pop clears the current entry, breaks when the counter
is at least 4, otherwise writes silence (returning the write error if it
fails) and increments the counter — the counter is never reset; a
successful pop sets the current entry, returns on a resolution failure
before any handler runs, then fires the new-song handler, streams the
entry (returning the write error on failure) and only then fires the
end-of-song handler, necessarily with a nil error. -/
def producerLoop (env : Env) :
    List (Option QueueEntry) → Nat → Nat → QueueEntry →
    List Event × Option LoopErr × QueueEntry
  | [], counter, k, _ =>
    let r := drainSilence env (4 - counter) k
    (r.1, r.2, emptyEntry)
  | none :: rest, counter, k, _ =>
    if 4 ≤ counter then ([], none, emptyEntry)
    else if env.silenceFails k then ([], some .encodeFailed, emptyEntry)
    else
      let r := producerLoop env rest (counter + 1) (k + 1) emptyEntry
      (Event.silence 15 :: r.1, r.2)
  | some e :: rest, counter, k, _ =>
    if env.resolveFails e then ([], some .resolveFailed, e)
    else if env.encodeFails e then ([Event.newSong e], some .encodeFailed, e)
    else
      let r := producerLoop env rest counter k e
      (Event.newSong e :: Event.audio e :: Event.endOfSong e none :: r.1, r.2)

/-- Entries actually offered by a feed, in pop order. -/
def poppedEntries (feed : List (Option QueueEntry)) : List QueueEntry :=
  feed.filterMap id

/-- Every occurrence of `x` in `t` is strictly before every occurrence of
`y`: the trace splits into a prefix free of `y` and a suffix free of `x`. -/
def allBefore (t : List Event) (x y : Event) : Prop :=
  ∃ t₁ t₂, t = t₁ ++ t₂ ∧ x ∉ t₂ ∧ y ∉ t₁

lemma runOps_waitingQueue (dj : Dj) (ops : List QOp) :
    (runOps dj ops).waitingQueue = specRun dj.waitingQueue ops := by
  induction ops generalizing dj with
  | nil => rfl
  | cons op ops ih =>
    simp only [runOps, specRun, List.foldl_cons]
    rw [← applyOp_waitingQueue]
    exact ih (applyOp dj op)

/-- Total duration of a list of entries. -/
def sumDur (l : List QueueEntry) : Int :=
  (l.map (fun e => e.media.duration)).sum

lemma durationsFrom_eq (nick : String) (items : List QueueEntry) :
    ∀ base : Int, durationsFrom nick base items =
      (List.range items.length).filterMap (fun i =>
        if (items.getD i emptyEntry).owner = nick
        then some (base + sumDur (items.take i)) else none) := by
  induction items with
  | nil => intro base; simp [durationsFrom]
  | cons c rest ih =>
    intro base
    rw [List.length_cons, List.range_succ_eq_map, List.filterMap_cons, List.filterMap_map]
    have htail :
        (List.filterMap
          ((fun i =>
            if ((c :: rest).getD i emptyEntry).owner = nick
            then some (base + sumDur ((c :: rest).take i)) else none) ∘ Nat.succ)
          (List.range rest.length)) =
        durationsFrom nick (base + c.media.duration) rest := by
      rw [ih (base + c.media.duration)]
      refine List.filterMap_congr ?_
      intro i _
      simp only [Function.comp, List.getD_cons_succ, List.take_succ_cons, sumDur,
        List.map_cons, List.sum_cons, add_assoc]
    by_cases hc : c.owner = nick
    · simp only [durationsFrom, hc, if_pos, List.getD_cons_zero, List.take_zero]
      rw [htail]
      simp [sumDur]
    · simp only [durationsFrom, hc, if_neg, List.getD_cons_zero, not_false_iff]
      rw [htail]

/-- Claim C1: every `Add`/`Insert`/`RemoveAt`/`ReplaceAt` changes the queue
length exactly as its contract predicts — `Add` and a successful `Insert`
grow it by one, a successful `RemoveAt` shrinks it by one, a successful
`ReplaceAt` and every failed operation leave it unchanged — and the queue
contents after any sequence of such operations equal the reference list
model run on the same sequence. -/
theorem c1_queue_sequence_model (dj : Dj) (ops : List QOp) (e : QueueEntry) (i : Int) :
    (runOps dj ops).waitingQueue = specRun dj.waitingQueue ops
    ∧ (addEntry dj e).waitingQueue.length = dj.waitingQueue.length + 1
    ∧ (insertEntry dj e i).1.waitingQueue.length =
        (if i < 0 then dj.waitingQueue.length else dj.waitingQueue.length + 1)
    ∧ ((insertEntry dj e i).2 = none ↔ 0 ≤ i)
    ∧ (removeIndex dj i).1.waitingQueue.length =
        (if 0 ≤ i ∧ i < (dj.waitingQueue.length : Int)
         then dj.waitingQueue.length - 1 else dj.waitingQueue.length)
    ∧ ((removeIndex dj i).2 = none ↔ 0 ≤ i ∧ i < (dj.waitingQueue.length : Int))
    ∧ (changeIndex dj e i).1.waitingQueue.length = dj.waitingQueue.length
    ∧ ((changeIndex dj e i).2 = none ↔ 0 ≤ i ∧ i < (dj.waitingQueue.length : Int)) := by
  refine ⟨runOps_waitingQueue dj ops, by simp [addEntry], ?_, ?_, ?_, ?_, ?_, ?_⟩
  · simp only [insertEntry]
    split_ifs with h1 h2 <;> simp <;> try omega
  · simp only [insertEntry]
    split_ifs with h1 h2 <;> simp <;> omega
  · simp only [removeIndex]
    split_ifs with h1 <;> simp <;> omega
  · simp only [removeIndex]
    split_ifs with h1 <;> simp <;> omega
  · simp only [changeIndex]
    split_ifs with h1 <;> simp
  · simp only [changeIndex]
    split_ifs with h1 <;> simp <;> omega

/-- Claim C4: the cumulative-wait scan returns, for each entry owned by the
given owner in queue order, the base value plus the sum of the durations of
all entries strictly before it; on the queue
`[A(owner=X,d=10), B(owner=Y,d=5), C(owner=X,d=7)]` with base 2 the result
for owner X is `[2, 17]`. -/
theorem c4_cumulative_wait (nick : String) (base : Int) (items : List QueueEntry) :
    durationsFrom nick base items =
      (List.range items.length).filterMap (fun i =>
        if (items.getD i emptyEntry).owner = nick
        then some (base + sumDur (items.take i)) else none)
    ∧ durationsFrom "X" 2
        [⟨⟨"A", "a", 10⟩, "X", ""⟩, ⟨⟨"B", "b", 5⟩, "Y", ""⟩, ⟨⟨"C", "c", 7⟩, "X", ""⟩]
        = [2, 17] :=
  ⟨durationsFrom_eq nick items base, by simp [durationsFrom]⟩

/-- Claim C5: `InsertEntry` at an index at least the queue length produces
exactly the state `AddEntry` produces, and at a negative index fails with
the out-of-range error leaving the state unchanged. -/
theorem c5_insert_edge_cases (dj : Dj) (e : QueueEntry) (i : Int) :
    ((dj.waitingQueue.length : Int) ≤ i → insertEntry dj e i = (addEntry dj e, none))
    ∧ (i < 0 → insertEntry dj e i = (dj, some outOfRangeMsg)) := by
  constructor
  · intro h
    have hi : ¬i < 0 := by omega
    simp [insertEntry, addEntry, hi, h]
  · intro h
    simp [insertEntry, h]

/-- Witness for C5 at the empty queue with indices 0 and -1. -/
theorem c5_insert_edge_cases_witness :
    insertEntry ⟨[], emptyEntry, 0⟩ emptyEntry 0 =
      (addEntry ⟨[], emptyEntry, 0⟩ emptyEntry, none)
    ∧ insertEntry ⟨[], emptyEntry, 0⟩ emptyEntry (-1) =
      (⟨[], emptyEntry, 0⟩, some outOfRangeMsg) :=
  ⟨(c5_insert_edge_cases ⟨[], emptyEntry, 0⟩ emptyEntry 0).1 (by decide),
   (c5_insert_edge_cases ⟨[], emptyEntry, 0⟩ emptyEntry (-1)).2 (by decide)⟩

/-- Claim C6: `RemoveIndex`, `ChangeIndex` and `EntryAtIndex` fail with the
out-of-range error exactly when the index is negative or at least the queue
length, and on failure the state is unchanged. -/
theorem c6_out_of_range (dj : Dj) (e : QueueEntry) (i : Int) :
    ((removeIndex dj i).2 = some outOfRangeMsg ↔
      i < 0 ∨ (dj.waitingQueue.length : Int) ≤ i)
    ∧ ((changeIndex dj e i).2 = some outOfRangeMsg ↔
      i < 0 ∨ (dj.waitingQueue.length : Int) ≤ i)
    ∧ ((entryAtIndex dj i).2 = some outOfRangeMsg ↔
      i < 0 ∨ (dj.waitingQueue.length : Int) ≤ i)
    ∧ (i < 0 ∨ (dj.waitingQueue.length : Int) ≤ i →
        (removeIndex dj i).1 = dj ∧ (changeIndex dj e i).1 = dj) := by
  refine ⟨?_, ?_, ?_, ?_⟩
  · simp only [removeIndex]
    split_ifs with h <;> simp <;> omega
  · simp only [changeIndex]
    split_ifs with h <;> simp [h]
  · simp only [entryAtIndex]
    split_ifs with h <;> simp <;> omega
  · intro h
    have h1 : (dj.waitingQueue.length : Int) ≤ i ∨ i < 0 := Or.symm h
    simp [removeIndex, changeIndex, h, h1]

/-- Witness for C6 at a one-element queue with index -1. -/
theorem c6_out_of_range_witness :
    ((removeIndex ⟨[emptyEntry], emptyEntry, 0⟩ (-1)).2 = some outOfRangeMsg
      ↔ (-1 : Int) < 0 ∨ ((1 : Nat) : Int) ≤ -1)
    ∧ (removeIndex ⟨[emptyEntry], emptyEntry, 0⟩ (-1)).1 = ⟨[emptyEntry], emptyEntry, 0⟩
    ∧ (changeIndex ⟨[emptyEntry], emptyEntry, 0⟩ emptyEntry (-1)).1 =
        ⟨[emptyEntry], emptyEntry, 0⟩ := by
  have h := c6_out_of_range ⟨[emptyEntry], emptyEntry, 0⟩ emptyEntry (-1)
  have hfail := h.2.2.2 (Or.inl (by decide))
  exact ⟨by simpa using h.1, hfail.1, hfail.2⟩

/-- Claim C7: `pop` on an empty queue returns the zero entry together with
`ErrorEmptyQueue` and leaves the whole state — queue, current entry and song
start time — unchanged. -/
theorem c7_pop_empty (dj : Dj) (h : dj.waitingQueue = []) :
    pop dj = ((emptyEntry, some errorEmptyQueueMsg), dj) := by
  cases dj with
  | mk q c s =>
    simp only at h
    subst h
    rfl

/-- Witness for C7 at an empty queue with a non-trivial playback state. -/
theorem c7_pop_empty_witness :
    pop ⟨[], ⟨⟨"t", "u", 9⟩, "o", "d"⟩, 5⟩ =
      ((emptyEntry, some errorEmptyQueueMsg), ⟨[], ⟨⟨"t", "u", 9⟩, "o", "d"⟩, 5⟩) :=
  c7_pop_empty ⟨[], ⟨⟨"t", "u", 9⟩, "o", "d"⟩, 5⟩ rfl

/-- Claim C10: `CurrentlyPlaying` always returns the current entry and the
elapsed time `now - songStarted`, and reports the nothing-playing error
exactly when the current entry's media equals the zero `Media` value; in
particular an entry whose media is the zero value is reported as nothing
playing even while it is the current entry. -/
theorem c10_currently_playing (dj : Dj) (now : Int) :
    (currentlyPlaying dj now).1 = dj.currentEntry
    ∧ (currentlyPlaying dj now).2.1 = now - dj.songStarted
    ∧ ((currentlyPlaying dj now).2.2 ≠ none ↔ dj.currentEntry.media = emptyMedia)
    ∧ (currentlyPlaying ⟨[], ⟨emptyMedia, "alice", ""⟩, 0⟩ 3).1 = ⟨emptyMedia, "alice", ""⟩
    ∧ (currentlyPlaying ⟨[], ⟨emptyMedia, "alice", ""⟩, 0⟩ 3).2.2 =
        some "there is no song being played" := by
  refine ⟨rfl, rfl, ?_, rfl, by simp [currentlyPlaying, emptyMedia]⟩
  simp only [currentlyPlaying]
  split_ifs with h <;> simp [h]

/-- Environment in which every external command succeeds. -/
def envAllOk : Env := ⟨fun _ => false, fun _ => false, fun _ => false⟩

/-- Environment in which every per-entry encode (`writeToFIFO` of an entry)
exits non-zero while resolution and silence segments succeed. -/
def envEncodeFails : Env := ⟨fun _ => false, fun _ => true, fun _ => false⟩

/-- Concrete entry used on counterexample runs. -/
def entryA : QueueEntry := ⟨⟨"A", "urlA", 10⟩, "X", ""⟩

/-- Second concrete entry used on counterexample runs. -/
def entryB : QueueEntry := ⟨⟨"B", "urlB", 5⟩, "Y", ""⟩

/-- Claim C2 is false on this code: with the queue `[entryA, entryB]` and the
encode step of `entryA` exiting non-zero, the producer goroutine returns the
encode error immediately — the end-of-song handler is never invoked for
`entryA` (with any error value) and `entryB` is never reached, rather than
the handler being called and the loop continuing. -/
theorem c2_encode_failure_kills_loop :
    producerLoop envEncodeFails [some entryA, some entryB] 0 0 emptyEntry
      = ([Event.newSong entryA], some LoopErr.encodeFailed, entryA)
    ∧ (∀ err, Event.endOfSong entryA err ∉
        (producerLoop envEncodeFails [some entryA, some entryB] 0 0 emptyEntry).1)
    ∧ Event.newSong entryB ∉
        (producerLoop envEncodeFails [some entryA, some entryB] 0 0 emptyEntry).1 := by
  refine ⟨rfl, ?_, ?_⟩
  · intro err
    show Event.endOfSong entryA err ∉ [Event.newSong entryA]
    simp
  · show Event.newSong entryB ∉ [Event.newSong entryA]
    simp [entryA, entryB]

/-- Pop-outcome feed exhibiting the missing counter reset: four empty pops,
one successful pop, then the queue is empty again. -/
def feedC3 : List (Option QueueEntry) :=
  [none, none, none, none, some entryA, none, none, none, none]

/-- Claim C3 is false on this code: `emptyStreamCounter` is never reset on a
successful pop.  After four empty pops (four silence segments) and one
successfully streamed entry, the very next empty pop terminates the loop:
no further silence segment is emitted even though the empty streak after
the successful pop has length one, not four. -/
theorem c3_counter_never_reset :
    producerLoop envAllOk feedC3 0 0 emptyEntry
      = ([Event.silence 15, Event.silence 15, Event.silence 15, Event.silence 15,
          Event.newSong entryA, Event.audio entryA, Event.endOfSong entryA none],
         none, emptyEntry) := rfl

lemma drainSilence_count_le (env : Env) :
    ∀ fuel k, ((drainSilence env fuel k).1.count (Event.silence 15)) ≤ fuel := by
  intro fuel
  induction fuel with
  | zero => intro k; simp [drainSilence]
  | succ n ih =>
    intro k
    simp only [drainSilence]
    split_ifs with h
    · simp
    · simpa [List.count_cons] using ih (k + 1)

lemma drainSilence_all_ok (env : Env) (hs : ∀ j, env.silenceFails j = false) :
    ∀ fuel k, drainSilence env fuel k = (List.replicate fuel (Event.silence 15), none) := by
  intro fuel
  induction fuel with
  | zero => intro k; simp [drainSilence]
  | succ n ih =>
    intro k
    simp [drainSilence, hs k, ih (k + 1), List.replicate_succ]

lemma producerLoop_count_le (env : Env) :
    ∀ (feed : List (Option QueueEntry)) (counter k : Nat) (cur : QueueEntry),
      ((producerLoop env feed counter k cur).1.count (Event.silence 15)) ≤ 4 - counter := by
  intro feed
  induction feed with
  | nil =>
    intro counter k cur
    simpa [producerLoop] using drainSilence_count_le env (4 - counter) k
  | cons x rest ih =>
    intro counter k cur
    cases x with
    | none =>
      simp only [producerLoop]
      split_ifs with h1 h2
      · simp
      · simp
      · have := ih (counter + 1) (k + 1) emptyEntry
        simp only [List.count_cons]
        simp only [beq_self_eq_true, if_true]
        omega
    | some e =>
      simp only [producerLoop]
      split_ifs with h1 h2
      · simp
      · simp [List.count_cons]
      · have := ih counter k e
        simpa [List.count_cons] using this

lemma producerLoop_all_none (env : Env) (hs : ∀ j, env.silenceFails j = false) :
    ∀ (feed : List (Option QueueEntry)), (∀ x ∈ feed, x = none) →
      ∀ (counter k : Nat) (cur : QueueEntry),
        producerLoop env feed counter k cur =
          (List.replicate (4 - counter) (Event.silence 15), none, emptyEntry) := by
  intro feed
  induction feed with
  | nil =>
    intro _ counter k cur
    simp [producerLoop, drainSilence_all_ok env hs (4 - counter) k]
  | cons x rest ih =>
    intro hall counter k cur
    have hx : x = none := hall x (List.mem_cons_self x rest)
    subst hx
    have hrest : ∀ y ∈ rest, y = none := fun y hy => hall y (List.mem_cons_of_mem _ hy)
    simp only [producerLoop]
    split_ifs with h1 h2
    · have : 4 - counter = 0 := by omega
      simp [this]
    · rw [hs k] at h2
      exact absurd h2 (by simp)
    · rw [ih hrest (counter + 1) (k + 1) emptyEntry]
      have : 4 - counter = (4 - (counter + 1)) + 1 := by omega
      rw [this, List.replicate_succ]

/-- Claim C8: in any producer run that starts with a zero empty-streak
counter at most 4 silence segments are written; and if the queue stays
empty throughout and the silence writes succeed, the loop clears the
current entry, writes exactly 4 fixed 15-second silence segments and then
terminates with a nil error. -/
theorem c8_empty_queue_drain (env : Env) (feed : List (Option QueueEntry))
    (k : Nat) (cur : QueueEntry) :
    ((producerLoop env feed 0 k cur).1.count (Event.silence 15) ≤ 4)
    ∧ ((∀ x ∈ feed, x = none) → (∀ j, env.silenceFails j = false) →
        producerLoop env feed 0 k cur =
          (List.replicate 4 (Event.silence 15), none, emptyEntry)) :=
  ⟨producerLoop_count_le env feed 0 k cur,
   fun hall hs => producerLoop_all_none env hs feed hall 0 k cur⟩

/-- Witness for C8 on a concrete always-empty feed with no failures. -/
theorem c8_empty_queue_drain_witness :
    producerLoop envAllOk [none, none] 0 0 emptyEntry =
      (List.replicate 4 (Event.silence 15), none, emptyEntry) :=
  (c8_empty_queue_drain envAllOk [none, none] 0 emptyEntry).2
    (by decide) (fun _ => rfl)

lemma allBefore_of_left_not_mem {t : List Event} {x y : Event} (h : x ∉ t) :
    allBefore t x y :=
  ⟨[], t, (List.nil_append t).symm, h, List.not_mem_nil y⟩

lemma allBefore_split {s t : List Event} {x y : Event} (hx : x ∉ t) (hy : y ∉ s) :
    allBefore (s ++ t) x y :=
  ⟨s, t, rfl, hx, hy⟩

lemma allBefore_append_left {s t : List Event} {x y : Event} (hy : y ∉ s)
    (h : allBefore t x y) : allBefore (s ++ t) x y := by
  obtain ⟨t₁, t₂, rfl, hx, hy1⟩ := h
  exact ⟨s ++ t₁, t₂, by rw [List.append_assoc], hx, by simp [List.mem_append, hy, hy1]⟩

lemma drainSilence_mem (env : Env) :
    ∀ fuel k ev, ev ∈ (drainSilence env fuel k).1 → ev = Event.silence 15 := by
  intro fuel
  induction fuel with
  | zero => intro k ev h; simp [drainSilence] at h
  | succ n ih =>
    intro k ev h
    simp only [drainSilence] at h
    split_ifs at h with hs
    · simp at h
    · rcases List.mem_cons.mp h with h | h
      · exact h
      · exact ih (k + 1) ev h

lemma producerLoop_event_shape (env : Env) :
    ∀ (feed : List (Option QueueEntry)) (counter k : Nat) (cur : QueueEntry)
      (ev : Event), ev ∈ (producerLoop env feed counter k cur).1 →
      ev = Event.silence 15 ∨ ∃ e, e ∈ poppedEntries feed ∧
        (ev = Event.newSong e ∨ ev = Event.audio e ∨ ev = Event.endOfSong e none) := by
  intro feed
  induction feed with
  | nil =>
    intro counter k cur ev hm
    exact Or.inl (drainSilence_mem env (4 - counter) k ev (by simpa [producerLoop] using hm))
  | cons x rest ih =>
    intro counter k cur ev hm
    cases x with
    | none =>
      have hp : poppedEntries (none :: rest) = poppedEntries rest := by
        simp [poppedEntries]
      rw [hp]
      simp only [producerLoop] at hm
      split_ifs at hm with h1 h2
      · simp at hm
      · simp at hm
      · rcases List.mem_cons.mp hm with h | h
        · exact Or.inl h
        · exact ih (counter + 1) (k + 1) emptyEntry ev h
    | some e =>
      have hp : poppedEntries (some e :: rest) = e :: poppedEntries rest := by
        simp [poppedEntries]
      rw [hp]
      simp only [producerLoop] at hm
      split_ifs at hm with h1 h2
      · simp at hm
      · rcases List.mem_singleton.mp hm with h
        exact Or.inr ⟨e, List.mem_cons_self e _, Or.inl h⟩
      · rcases List.mem_cons.mp hm with h | hm
        · exact Or.inr ⟨e, List.mem_cons_self e _, Or.inl h⟩
        · rcases List.mem_cons.mp hm with h | hm
          · exact Or.inr ⟨e, List.mem_cons_self e _, Or.inr (Or.inl h)⟩
          · rcases List.mem_cons.mp hm with h | hm
            · exact Or.inr ⟨e, List.mem_cons_self e _, Or.inr (Or.inr h)⟩
            · rcases ih counter k e ev hm with h | ⟨e', he', h⟩
              · exact Or.inl h
              · exact Or.inr ⟨e', List.mem_cons_of_mem e he', h⟩

lemma entry_events_not_mem (env : Env) (feed : List (Option QueueEntry))
    (counter k : Nat) (cur : QueueEntry) (e : QueueEntry)
    (h : e ∉ poppedEntries feed) :
    Event.newSong e ∉ (producerLoop env feed counter k cur).1
    ∧ Event.audio e ∉ (producerLoop env feed counter k cur).1
    ∧ Event.endOfSong e none ∉ (producerLoop env feed counter k cur).1 := by
  refine ⟨fun hm => ?_, fun hm => ?_, fun hm => ?_⟩ <;>
    rcases producerLoop_event_shape env feed counter k cur _ hm with
      hs | ⟨e', he', h1 | h1 | h1⟩ <;> simp_all

/-- Claim C9: in any producer run, for any two entries `a` popped before
`b` (given by a decomposition of the pop-order entry list, which is assumed
free of duplicates so that occurrences identify entries), every write of
`a`'s audio to the output stream precedes every write of `b`'s audio, and
every end-of-song callback for `a` precedes every new-song callback for
`b`. -/
theorem c9_trace_ordering (env : Env) (feed : List (Option QueueEntry))
    (counter k : Nat) (cur : QueueEntry) (l₁ l₂ l₃ : List QueueEntry)
    (a b : QueueEntry)
    (hsplit : poppedEntries feed = l₁ ++ a :: l₂ ++ b :: l₃)
    (hnd : (poppedEntries feed).Nodup) :
    allBefore (producerLoop env feed counter k cur).1 (Event.audio a) (Event.audio b)
    ∧ allBefore (producerLoop env feed counter k cur).1
        (Event.endOfSong a none) (Event.newSong b) := by
  induction feed generalizing counter k cur l₁ with
  | nil =>
    exact absurd hsplit (by simp [poppedEntries])
  | cons x rest ih =>
    cases x with
    | none =>
      have hp : poppedEntries (none :: rest) = poppedEntries rest := by
        simp [poppedEntries]
      rw [hp] at hsplit hnd
      simp only [producerLoop]
      split_ifs with h1 h2
      · exact ⟨allBefore_of_left_not_mem (List.not_mem_nil _),
          allBefore_of_left_not_mem (List.not_mem_nil _)⟩
      · exact ⟨allBefore_of_left_not_mem (List.not_mem_nil _),
          allBefore_of_left_not_mem (List.not_mem_nil _)⟩
      · have IH := ih (counter + 1) (k + 1) emptyEntry l₁ hsplit hnd
        exact ⟨allBefore_append_left (s := [Event.silence 15]) (by simp) IH.1,
          allBefore_append_left (s := [Event.silence 15]) (by simp) IH.2⟩
    | some e =>
      have hp : poppedEntries (some e :: rest) = e :: poppedEntries rest := by
        simp [poppedEntries]
      rw [hp] at hsplit hnd
      have hnd' := List.nodup_cons.mp hnd
      cases l₁ with
      | nil =>
        simp only [List.nil_append] at hsplit
        injection hsplit with he htl
        subst he
        have hb : b ∈ poppedEntries rest := by rw [htl]; simp
        have hbe : b ≠ e := fun h => hnd'.1 (h ▸ hb)
        simp only [producerLoop]
        split_ifs with h1 h2
        · exact ⟨allBefore_of_left_not_mem (List.not_mem_nil _),
            allBefore_of_left_not_mem (List.not_mem_nil _)⟩
        · exact ⟨allBefore_of_left_not_mem (by simp),
            allBefore_of_left_not_mem (by simp)⟩
        · have hne := entry_events_not_mem env rest counter k e e hnd'.1
          refine ⟨?_, ?_⟩
          · exact allBefore_split
              (s := [Event.newSong e, Event.audio e, Event.endOfSong e none])
              hne.2.1 (by simp [hbe])
          · exact allBefore_split
              (s := [Event.newSong e, Event.audio e, Event.endOfSong e none])
              hne.2.2 (by simp [hbe])
      | cons e' l₁' =>
        injection hsplit with he htl
        subst he
        have ha : a ∈ poppedEntries rest := by rw [htl]; simp
        have hb : b ∈ poppedEntries rest := by rw [htl]; simp
        have hae : a ≠ e := fun h => hnd'.1 (h ▸ ha)
        have hbe : b ≠ e := fun h => hnd'.1 (h ▸ hb)
        simp only [producerLoop]
        split_ifs with h1 h2
        · exact ⟨allBefore_of_left_not_mem (List.not_mem_nil _),
            allBefore_of_left_not_mem (List.not_mem_nil _)⟩
        · exact ⟨allBefore_of_left_not_mem (by simp),
            allBefore_of_left_not_mem (by simp)⟩
        · have IH := ih counter k e l₁' htl hnd'.2
          exact ⟨allBefore_append_left
              (s := [Event.newSong e, Event.audio e, Event.endOfSong e none])
              (by simp [hbe]) IH.1,
            allBefore_append_left
              (s := [Event.newSong e, Event.audio e, Event.endOfSong e none])
              (by simp [hbe]) IH.2⟩

/-- Witness for C9 on the two-entry queue `[entryA, entryB]` with no
failures. -/
theorem c9_trace_ordering_witness :
    allBefore (producerLoop envAllOk [some entryA, some entryB] 0 0 emptyEntry).1
      (Event.audio entryA) (Event.audio entryB)
    ∧ allBefore (producerLoop envAllOk [some entryA, some entryB] 0 0 emptyEntry).1
      (Event.endOfSong entryA none) (Event.newSong entryB) :=
  c9_trace_ordering envAllOk [some entryA, some entryB] 0 0 emptyEntry
    [] [] [] entryA entryB rfl (by decide)

end Opendj
